import Mathlib

/-!
Shallow embedding of the igc4vid progressive flight-scoring pipeline
(src/index.ts).  Numbers that TypeScript stores as IEEE doubles are
modelled as `Rat`; timestamps are `Int` milliseconds; fallible
operations (network fetch, solver exhaustion) return `Except`.
The external elevation service is an oracle `svc : Nat → FetchResponse`
mapping the batch index to the HTTP response, and the external solver is
an oracle `solver : List Fix → List Candidate` producing the (finite)
candidate stream pulled by the do-while loop.
-/

namespace Igc4vid

/-- One GPS fix of the parsed IGC track (igc-parser's BRecordFix fields
used by src/index.ts). -/
structure Fix where
  time : String
  timestamp : Int
  latitude : Rat
  longitude : Rat
  gpsAltitude : Int
deriving DecidableEq, Repr, Inhabited

/-- Location part of one elevation-service result row. -/
structure ElevationDataRowLocation where
  lat : Rat
  lng : Rat
deriving DecidableEq, Repr, Inhabited

/-- One result row of the elevation service's JSON response. -/
structure ElevationDataRow where
  dataset : String
  elevation : Int
  location : ElevationDataRowLocation
deriving DecidableEq, Repr, Inhabited

/-- JSON body of a successful elevation-service response. -/
structure ElevationData where
  results : List ElevationDataRow
  status : String
deriving DecidableEq, Repr, Inhabited

/-- An HTTP response of the elevation service: either a non-success
HTTP status (`response.ok` false) or a parsed JSON body. -/
inductive FetchResponse where
  | httpError (status : Nat)
  | ok (data : ElevationData)
deriving DecidableEq, Repr, Inhabited

/-- The per-fix output record built by processData. `groundElev` is an
`Option` because `elevations[i + j]` is `undefined` in JavaScript when
the elevation list is shorter than the track. -/
structure TargetData where
  time : String
  gpsAlt : Int
  groundElev : Option Int
  xc : String
  avgSpeed : Rat
deriving DecidableEq, Repr, Inhabited

/-- Score payload of a solver candidate (igc-xc-score `scoreInfo`).
`penalty` is `none` when the field is missing or NaN. -/
structure ScoreInfo where
  distance : Rat
  penalty : Option Rat
deriving DecidableEq, Repr, Inhabited

/-- One candidate solution pulled from the solver generator; `code` is
`next.opt.scoring.code`. -/
structure Candidate where
  optimal : Bool
  code : String
  scoreInfo : ScoreInfo
deriving DecidableEq, Repr, Inhabited

/-- Structural helper for `chunksOf`: `fuel` bounds the number of
chunks still to produce (the list's length always suffices when
`n ≠ 0`). -/
def chunksOfFuel (n : Nat) : Nat → List α → List (List α)
  | _, [] => []
  | 0, _ :: _ => []
  | fuel + 1, x :: xs => (x :: xs).take n :: chunksOfFuel n fuel ((x :: xs).drop n)

/-- Consecutive slices of at most `n` elements, in order: the sequence
of values `l.slice(i, i + n)` produced by a `for (i = 0; i < len; i += n)`
loop.  For `n = 0` (never used) the result is `[]`. -/
def chunksOf (n : Nat) (l : List α) : List (List α) :=
  if n = 0 then [] else chunksOfFuel n l.length l

/-- `chunksOfFuel` ignores the exact fuel value whenever the fuel is at
least the list's length and `n` is positive. -/
theorem chunksOfFuel_fuel_irrel {n : Nat} (hn : n ≠ 0) :
    ∀ (fuel fuel' : Nat) (l : List α), l.length ≤ fuel → l.length ≤ fuel' →
    chunksOfFuel n fuel l = chunksOfFuel n fuel' l := by
  intro fuel
  induction fuel with
  | zero =>
    intro fuel' l hf hf'
    match l with
    | [] =>
      match fuel' with
      | 0 => rfl
      | _ + 1 => rfl
    | x :: xs => simp at hf
  | succ fuel ih =>
    intro fuel' l hf hf'
    match l with
    | [] =>
      match fuel' with
      | 0 => rfl
      | _ + 1 => rfl
    | x :: xs =>
      match fuel' with
      | 0 => simp at hf'
      | fuel' + 1 =>
        simp only [chunksOfFuel]
        congr 1
        apply ih
        · simp only [List.length_drop, List.length_cons] at *
          omega
        · simp only [List.length_drop, List.length_cons] at *
          omega

/-- JavaScript `x.toFixed(digits)` for non-negative `x`: round
`x * 10^digits` to the nearest integer, ties toward the larger value,
and print with exactly `digits` fraction digits.  The rounded value
`⌊x * 10^digits + 1/2⌋` is computed on the exact rational as
`(2 * 10^digits * num + den) / (2 * den)` in integer floor division. -/
def toFixedPos (digits : Nat) (x : Rat) : String :=
  let p : Nat := 10 ^ digits
  let n : Nat := ((2 * (p : Int) * x.num + (x.den : Int)) / (2 * (x.den : Int))).toNat
  if digits = 0 then toString (n / p) else
    let frac := toString (n % p)
    let pad := String.mk (List.replicate (digits - frac.length) '0')
    toString (n / p) ++ "." ++ pad ++ frac

/-- JavaScript `x.toFixed(digits)`: negative values print a sign and
round their magnitude. -/
def jsToFixed (digits : Nat) (x : Rat) : String :=
  if x < 0 then "-" ++ toFixedPos digits (-x) else toFixedPos digits x

/-- JavaScript `s.startsWith(p)`: `p` is a prefix of `s`, checked on
the character sequence. -/
def strStartsWith (s p : String) : Bool :=
  p.data.isPrefixOf s.data

/-- The `locations` query value built for one batch in
getGroundElevations: latitude and longitude of each fix via
`toFixed(5)`, the pair separated by a comma and a space, pairs joined
by a pipe character. -/
def locationsQuery (chunk : List Fix) : String :=
  String.intercalate "|" (chunk.map fun t =>
    jsToFixed 5 t.latitude ++ ", " ++ jsToFixed 5 t.longitude)

/-- The elevations carried by a response: empty unless the HTTP status
was success AND the JSON status starts with "OK" (the body of the
`if (response.ok)` / `if (data.status.startsWith('OK'))` branches). -/
def respElevs : FetchResponse → List Int
  | .httpError _ => []
  | .ok d => if strStartsWith d.status "OK" then d.results.map (fun r => r.elevation) else []

/-- The raw result rows of a successful response, as elevations,
ignoring the status field (used to express positional alignment). -/
def respResults : FetchResponse → List Int
  | .httpError _ => []
  | .ok d => d.results.map (fun r => r.elevation)

/-- The fetch loop of getGroundElevations over the list of batches,
`b` being the index of the first batch.  Returns the URLs requested (in
order, stopping after a failing request) and either the concatenated
elevation list or the thrown error.  A response whose HTTP status is
success but whose JSON status does not start with "OK" contributes no
elevations and no error. -/
def fetchBatches (svc : Nat → FetchResponse) (server : String) :
    List (List Fix) → Nat → List String × Except String (List Int)
  | [], _ => ([], .ok [])
  | c :: rest, b =>
    let req := server ++ "?locations=" ++ locationsQuery c
    match svc b with
    | .httpError s => ([req], .error ("Server replies " ++ toString s))
    | .ok d =>
      let t := fetchBatches svc server rest (b + 1)
      (req :: t.1,
        match t.2 with
        | .error e => .error e
        | .ok l =>
          .ok ((if strStartsWith d.status "OK" then d.results.map (fun r => r.elevation) else []) ++ l))

/-- getGroundElevations of src/index.ts, returning both the issued
requests and the result. -/
def getGroundElevationsFull (svc : Nat → FetchResponse) (server : String)
    (fixes : List Fix) : List String × Except String (List Int) :=
  fetchBatches svc server (chunksOf 100 fixes) 0

/-- The value getGroundElevations returns (or the error it throws). -/
def getGroundElevations (svc : Nat → FetchResponse) (server : String)
    (fixes : List Fix) : Except String (List Int) :=
  (getGroundElevationsFull svc server fixes).2

/-- The HTTP requests getGroundElevations issues, in order. -/
def elevationRequests (svc : Nat → FetchResponse) (server : String)
    (fixes : List Fix) : List String :=
  (getGroundElevationsFull svc server fixes).1

/-- getRouteType of src/index.ts: maps the scoring code to a label, or
`undefined` for unknown codes. -/
def getRouteType (scoringCode : String) : Option String :=
  match scoringCode with
  | "fai" => some "FAI"
  | "tri" => some "flat"
  | _ => none

/-- The net scoring distance shown in the xc label:
`distance - penalty`, a missing or NaN penalty counting as zero. -/
def netDistance (s : ScoreInfo) : Rat :=
  s.distance - (match s.penalty with | none => 0 | some p => p)

/-- The xc string: route label (if any), rounded net distance and "km",
joined by spaces after dropping falsy entries (`filter(Boolean)`). -/
def xcLabel (code : String) (net : Rat) : String :=
  String.intercalate " "
    ((([getRouteType code, some (jsToFixed 0 net), some "km"]).filterMap id).filter
      (fun s => s ≠ ""))

/-- The scoring loop of processData over the chunk list.  `acc` is the
current value of the mutable `igc.fixes` accumulator, `i` the index of
the chunk's first fix.  Returns the produced rows (or an error when the
solver generator is exhausted without an optimal candidate, where the
source would crash) together with the final value of `igc.fixes`. -/
def processChunks (solver : List Fix → List Candidate) (firstTimestamp : Int)
    (elevations : List Int) :
    List (List Fix) → List Fix → Nat → Except String (List TargetData) × List Fix
  | [], acc, _ => (.ok [], acc)
  | c :: rest, acc, i =>
    let acc' := acc ++ c
    match (solver acc').find? (fun cand => cand.optimal) with
    | none => (.error "solver exhausted without an optimal candidate", acc')
    | some cand =>
      let xc := xcLabel cand.code (netDistance cand.scoreInfo)
      let avgSpeed := cand.scoreInfo.distance /
        ((((c.getLastD default).timestamp - firstTimestamp : Int) : Rat) / 3600000)
      let rows := c.enum.map (fun p =>
        { time := p.2.time, gpsAlt := p.2.gpsAltitude,
          groundElev := elevations.get? (i + p.1), xc := xc,
          avgSpeed := avgSpeed : TargetData })
      let t := processChunks solver firstTimestamp elevations rest acc' (i + c.length)
      ((match t.1 with | .error e => .error e | .ok rs => .ok (rows ++ rs)), t.2)

/-- processData of src/index.ts.  First fetches elevations (propagating
a thrown error), returns empty output for an empty track, otherwise
runs the chunked scoring loop with chunk size 60.  The second component
is the final value of the mutated `igc.fixes` field. -/
def processData (svc : Nat → FetchResponse) (server : String)
    (solver : List Fix → List Candidate) (fixes : List Fix) :
    Except String (List TargetData) × List Fix :=
  match getGroundElevations svc server fixes with
  | .error e => (.error e, fixes)
  | .ok elevations =>
    match fixes with
    | [] => (.ok [], fixes)
    | f :: _ => processChunks solver f.timestamp elevations (chunksOf 60 fixes) [] 0

/-- The prefixes submitted to the solver by processData, in order: the
accumulator content at each iteration of the scoring loop. -/
def scoringPrefixes (fixes : List Fix) : List (List Fix) :=
  if fixes.length = 0 then [] else go (chunksOf 60 fixes) []
where
  go : List (List Fix) → List Fix → List (List Fix)
  | [], _ => []
  | c :: rest, acc => (acc ++ c) :: go rest (acc ++ c)

/-- One CSV row written by writeProcessedFile; errors when
`groundElev` is `undefined` (where `toFixed` would throw). -/
def formatRow (flightDate : String) (r : TargetData) : Except String String :=
  match r.groundElev with
  | none => .error "TypeError: groundElev is undefined"
  | some g =>
    .ok (flightDate ++ "T" ++ r.time ++ "Z," ++ toString r.gpsAlt ++ ","
      ++ jsToFixed 0 (g : Rat) ++ "," ++ jsToFixed 0 ((r.gpsAlt - g : Int) : Rat) ++ ","
      ++ r.xc ++ "," ++ jsToFixed 1 r.avgSpeed)

/-- The lines writeProcessedFile writes: the header and one row per
record. -/
def writeProcessedFile (flightDate : String) (rows : List TargetData) :
    Except String (List String) := do
  let body ← rows.mapM (formatRow flightDate)
  pure ("date,altitude(m),ground alt(m),agl(m),xc(km),avg speed(km/h)" :: body)

/-- The data path of `run`: processData, then (only when it completed)
the output file's lines.  An error means the run aborts and no output
file is produced. -/
def runPipeline (svc : Nat → FetchResponse) (server : String)
    (solver : List Fix → List Candidate) (flightDate : String)
    (fixes : List Fix) : Except String (List String) :=
  match (processData svc server solver fixes).1 with
  | .error e => .error e
  | .ok rows => writeProcessedFile flightDate rows

/-- The elevation service behaves on batch `b` (0-based, of content
`c`): HTTP success, JSON status starting with "OK", and one result row
per requested coordinate. -/
def batchOK (svc : Nat → FetchResponse) (b : Nat) (c : List Fix) : Prop :=
  ∃ d, svc b = .ok d ∧ strStartsWith d.status "OK" = true ∧ d.results.length = c.length

/-- The solver always terminates: its candidate stream contains an
optimal candidate for every submitted track. -/
def solverTotal (solver : List Fix → List Candidate) : Prop :=
  ∀ l, ((solver l).find? (fun cand => cand.optimal)).isSome = true

/-! Structural lemmas about `chunksOf`. -/

theorem chunksOf_nil (n : Nat) : chunksOf n ([] : List α) = [] := by
  rw [chunksOf]
  split
  · rfl
  · rfl

theorem chunksOf_eq_cons {n : Nat} (hn : n ≠ 0) {l : List α} (hl : l ≠ []) :
    chunksOf n l = l.take n :: chunksOf n (l.drop n) := by
  match l with
  | [] => exact absurd rfl hl
  | x :: xs =>
    rw [chunksOf, if_neg hn, chunksOf, if_neg hn]
    simp only [List.length_cons, chunksOfFuel]
    congr 1
    apply chunksOfFuel_fuel_irrel hn
    · simp only [List.length_drop, List.length_cons]
      omega
    · exact le_refl _

theorem chunksOf_flatten {n : Nat} (hn : n ≠ 0) (l : List α) :
    (chunksOf n l).flatten = l := by
  rcases eq_or_ne l [] with rfl | hl
  · rw [chunksOf_nil]
    rfl
  · rw [chunksOf_eq_cons hn hl, List.flatten_cons,
      chunksOf_flatten hn (l.drop n), List.take_append_drop]
termination_by l.length
decreasing_by
  simp only [List.length_drop]
  have : l.length ≠ 0 := by simpa using hl
  omega

theorem chunksOf_ne_nil (n : Nat) (hn : n ≠ 0) {l : List α} :
    ∀ c ∈ chunksOf n l, c ≠ [] := by
  intro c hc
  rcases eq_or_ne l [] with rfl | hl
  · rw [chunksOf_nil] at hc
    exact absurd hc (List.not_mem_nil c)
  · rw [chunksOf_eq_cons hn hl, List.mem_cons] at hc
    rcases hc with hc | hc
    · subst hc
      simp only [ne_eq, List.take_eq_nil_iff]
      push_neg
      exact ⟨hn, hl⟩
    · exact chunksOf_ne_nil n hn c hc
termination_by l.length
decreasing_by
  simp only [List.length_drop]
  have : l.length ≠ 0 := by simpa using hl
  omega

theorem chunksOf_getElem?_length (n : Nat) (hn : n ≠ 0) (l : List α) (k : Nat)
    {c : List α} (hc : (chunksOf n l)[k]? = some c) :
    c.length = min n (l.length - n * k) := by
  rcases eq_or_ne l [] with rfl | hl
  · rw [chunksOf_nil] at hc
    simp at hc
  · rw [chunksOf_eq_cons hn hl] at hc
    match k with
    | 0 =>
      simp only [List.getElem?_cons_zero, Option.some_inj] at hc
      subst hc
      simp [List.length_take]
    | k + 1 =>
      simp only [List.getElem?_cons_succ] at hc
      rw [chunksOf_getElem?_length n hn (l.drop n) k hc, List.length_drop]
      have : n * (k + 1) = n + n * k := by ring
      omega
termination_by l.length
decreasing_by
  simp only [List.length_drop]
  have : l.length ≠ 0 := by simpa using hl
  omega

theorem chunksOf_getElem?_isSome (n : Nat) (hn : n ≠ 0) (l : List α) (k : Nat)
    {c : List α} (hc : (chunksOf n l)[k]? = some c) :
    n * k < l.length := by
  have hmem : c ∈ chunksOf n l := List.getElem?_mem hc
  have hne : c ≠ [] := chunksOf_ne_nil n hn c hmem
  have hlen : c.length = min n (l.length - n * k) := chunksOf_getElem?_length n hn l k hc
  have : 0 < c.length := List.length_pos.mpr hne
  omega

/-- Every chunk before an existing later chunk has length exactly `n`. -/
theorem chunksOf_getElem?_length_eq (n : Nat) (hn : n ≠ 0) (l : List α) {j k : Nat}
    (hjk : j < k) {c c' : List α}
    (hj : (chunksOf n l)[j]? = some c) (hk : (chunksOf n l)[k]? = some c') :
    c.length = n := by
  have hlen := chunksOf_getElem?_length n hn l j hj
  have hbound := chunksOf_getElem?_isSome n hn l k hk
  have hmul : n * (j + 1) ≤ n * k := Nat.mul_le_mul_left n hjk
  have : n * (j + 1) = n * j + n := by ring
  omega

theorem chunksOf_take_flatten {n : Nat} (hn : n ≠ 0) (l : List α) (k : Nat) :
    ((chunksOf n l).take k).flatten = l.take (n * k) := by
  rcases eq_or_ne l [] with rfl | hl
  · rw [chunksOf_nil]
    simp
  · match k with
    | 0 => rfl
    | k + 1 =>
      rw [chunksOf_eq_cons hn hl]
      simp only [List.take_succ_cons, List.flatten_cons]
      rw [chunksOf_take_flatten hn (l.drop n) k]
      have : n * (k + 1) = n + n * k := by ring
      rw [this, List.take_add]
termination_by l.length
decreasing_by
  simp only [List.length_drop]
  have : l.length ≠ 0 := by simpa using hl
  omega

/-- Dropping `n * k` elements of a flattened list skips the first `k`
blocks when those blocks all have length `n`. -/
theorem flatten_drop_blocks (n : Nat) :
    ∀ (ls : List (List α)) (k : Nat), k ≤ ls.length →
    (∀ j, j < k → ∀ c, ls[j]? = some c → c.length = n) →
    ls.flatten.drop (n * k) = (ls.drop k).flatten := by
  intro ls
  induction ls with
  | nil =>
    intro k hk _
    have : k = 0 := by simpa using hk
    subst this
    simp
  | cons c rest ih =>
    intro k hk hsz
    match k with
    | 0 => simp
    | k + 1 =>
      have hc : c.length = n := hsz 0 (by omega) c (by simp)
      rw [List.flatten_cons]
      have hnk : n * (k + 1) = c.length + n * k := by rw [hc]; ring
      rw [hnk, List.drop_append, List.drop_succ_cons]
      exact ih k (by simpa using hk)
        (fun j hj d hd => hsz (j + 1) (by omega) d (by simpa using hd))

/-- Indexing into a flattened list whose first `k` blocks have length
`n`: position `n * k + r` reads position `r` of block `k`. -/
theorem flatten_getElem_blocks (n : Nat) (ls : List (List α)) (k r : Nat)
    (hsz : ∀ j, j < k → ∀ b, ls[j]? = some b → b.length = n)
    {blk : List α} (hb : ls[k]? = some blk) (hr : r < blk.length) :
    ls.flatten[n * k + r]? = blk[r]? := by
  have hk : k < ls.length := (List.getElem?_eq_some.mp hb).1
  have h1 : ls.flatten[n * k + r]? = (ls.flatten.drop (n * k))[r]? := by
    rw [List.getElem?_drop]
  rw [h1, flatten_drop_blocks n ls k (le_of_lt hk) hsz]
  have hdk : ls.drop k = blk :: ls.drop (k + 1) := by
    rw [List.drop_eq_getElem_cons hk]
    congr 1
    rcases List.getElem?_eq_some.mp hb with ⟨h, hgc⟩
    simpa using hgc
  rw [hdk, List.flatten_cons, List.getElem?_append_left hr]

theorem chunksOf_hundred_length (l : List α) :
    (chunksOf 100 l).length = (l.length + 99) / 100 := by
  rcases eq_or_ne l [] with rfl | hl
  · rw [chunksOf_nil]
    simp
  · rw [chunksOf_eq_cons (by omega) hl]
    simp only [List.length_cons]
    rw [chunksOf_hundred_length (l.drop 100), List.length_drop]
    have : l.length ≠ 0 := by simpa using hl
    omega
termination_by l.length
decreasing_by
  simp only [List.length_drop]
  have : l.length ≠ 0 := by simpa using hl
  omega

/-! Lemmas about the elevation fetch loop. -/

/-- When no batch hits a non-success HTTP status, the fetch loop issues
one request per batch and returns the concatenation, in batch order, of
each response's contributed elevations. -/
theorem fetchBatches_ok (svc : Nat → FetchResponse) (server : String) :
    ∀ (chunks : List (List Fix)) (b0 : Nat),
    (∀ j, j < chunks.length → ∀ s, svc (b0 + j) ≠ .httpError s) →
    fetchBatches svc server chunks b0 =
      (chunks.map (fun ch => server ++ "?locations=" ++ locationsQuery ch),
       .ok (((List.range chunks.length).map
          (fun j => respElevs (svc (b0 + j)))).flatten)) := by
  intro chunks
  induction chunks with
  | nil =>
    intro b0 _
    simp [fetchBatches]
  | cons ch rest ih =>
    intro b0 hok
    match hs : svc b0 with
    | .httpError s =>
      exact absurd hs (by simpa using hok 0 (by simp) s)
    | .ok d =>
      have hok' : ∀ j, j < rest.length → ∀ s, svc (b0 + 1 + j) ≠ .httpError s := by
        intro j hj s
        have h := hok (j + 1) (by simp only [List.length_cons]; omega) s
        have heq : b0 + (j + 1) = b0 + 1 + j := by omega
        rw [heq] at h
        exact h
      simp only [fetchBatches, hs]
      rw [ih (b0 + 1) hok']
      have hcomp : (fun j => respElevs (svc (b0 + j))) ∘ Nat.succ
          = fun j => respElevs (svc (b0 + 1 + j)) := funext fun j => by
        have heq : b0 + Nat.succ j = b0 + 1 + j := by omega
        simp only [Function.comp, heq]
      simp only [List.length_cons, List.range_succ_eq_map, List.map_cons, List.map_map,
        List.flatten_cons, hcomp]
      have h0 : respElevs (svc (b0 + 0)) =
          (if strStartsWith d.status "OK" then d.results.map (fun r => r.elevation) else []) := by
        simp [respElevs, hs]
      rw [h0]

/-- If some batch within range returns a non-success HTTP status, the
fetch loop throws. -/
theorem fetchBatches_error (svc : Nat → FetchResponse) (server : String) :
    ∀ (chunks : List (List Fix)) (b0 : Nat),
    (∃ b, b < chunks.length ∧ ∃ s, svc (b0 + b) = .httpError s) →
    ∃ e, (fetchBatches svc server chunks b0).2 = .error e := by
  intro chunks
  induction chunks with
  | nil =>
    intro b0 h
    rcases h with ⟨b, hb, _⟩
    simp at hb
  | cons ch rest ih =>
    intro b0 h
    match hs : svc b0 with
    | .httpError s =>
      exact ⟨"Server replies " ++ toString s, by simp [fetchBatches, hs]⟩
    | .ok d =>
      rcases h with ⟨b, hb, s, hbs⟩
      match b with
      | 0 =>
        have h' : svc b0 = .httpError s := by simpa using hbs
        rw [h'] at hs
        cases hs
      | b + 1 =>
        have hrec := ih (b0 + 1) ⟨b, by simpa using hb, s, by
          have : b0 + 1 + b = b0 + (b + 1) := by omega
          rw [this]
          exact hbs⟩
        rcases hrec with ⟨e, he⟩
        refine ⟨e, ?_⟩
        simp only [fetchBatches, hs]
        rw [he]

/-! Lemmas about the chunked scoring loop. -/

/-- A terminating solver never leaves the scoring loop in the error
state. -/
theorem processChunks_isOk (solver : List Fix → List Candidate) (ft : Int)
    (elevs : List Int) (hs : solverTotal solver) :
    ∀ (chunks : List (List Fix)) (acc : List Fix) (i : Nat),
    ∃ rows accF, processChunks solver ft elevs chunks acc i = (.ok rows, accF) := by
  intro chunks
  induction chunks with
  | nil =>
    intro acc i
    exact ⟨[], acc, rfl⟩
  | cons ch rest ih =>
    intro acc i
    rcases Option.isSome_iff_exists.mp (hs (acc ++ ch)) with ⟨cand, hcand⟩
    rcases ih (acc ++ ch) (i + ch.length) with ⟨rs, accF, hrec⟩
    refine ⟨?_, accF, ?_⟩
    · exact (ch.enum.map (fun p =>
        { time := p.2.time, gpsAlt := p.2.gpsAltitude,
          groundElev := elevs.get? (i + p.1),
          xc := xcLabel cand.code (netDistance cand.scoreInfo),
          avgSpeed := cand.scoreInfo.distance /
            ((((ch.getLastD default).timestamp - ft : Int) : Rat) / 3600000) : TargetData})) ++ rs
    · simp only [processChunks, hcand, hrec]

/-- The per-fix `time` values of the produced rows are exactly those of
the consumed chunks, in order. -/
theorem processChunks_time (solver : List Fix → List Candidate) (ft : Int)
    (elevs : List Int) :
    ∀ (chunks : List (List Fix)) (acc : List Fix) (i : Nat) rows accF,
    processChunks solver ft elevs chunks acc i = (.ok rows, accF) →
    rows.map (fun r => r.time) = chunks.flatten.map (fun f => f.time) := by
  intro chunks
  induction chunks with
  | nil =>
    intro acc i rows accF h
    simp only [processChunks, Prod.mk.injEq, Except.ok.injEq] at h
    rw [← h.1]
    rfl
  | cons ch rest ih =>
    intro acc i rows accF h
    simp only [processChunks] at h
    match hcand : (solver (acc ++ ch)).find? (fun cand => cand.optimal) with
    | none =>
      rw [hcand] at h
      simp at h
    | some cand =>
      rw [hcand] at h
      match hrec : (processChunks solver ft elevs rest (acc ++ ch) (i + ch.length)).1 with
      | .error e =>
        rw [hrec] at h
        simp at h
      | .ok rs =>
        rw [hrec] at h
        simp only [Prod.mk.injEq, Except.ok.injEq] at h
        obtain ⟨hrows, hacc⟩ := h
        subst hrows
        rw [List.flatten_cons, List.map_append, List.map_append]
        congr 1
        · rw [List.map_map]
          have hfun : ((fun r : TargetData => r.time) ∘ (fun p : Nat × Fix =>
              ({ time := p.2.time, gpsAlt := p.2.gpsAltitude,
                 groundElev := elevs.get? (i + p.1),
                 xc := xcLabel cand.code (netDistance cand.scoreInfo),
                 avgSpeed := cand.scoreInfo.distance /
                   ((((ch.getLastD default).timestamp - ft : Int) : Rat) / 3600000) } : TargetData)))
              = (fun f : Fix => f.time) ∘ Prod.snd := rfl
          rw [hfun, ← List.map_map, List.enum_map_snd]
        · exact ih (acc ++ ch) (i + ch.length) rs
            (processChunks solver ft elevs rest (acc ++ ch) (i + ch.length)).2
            (by rw [← hrec])

/-- On success the final accumulator is the initial one extended by all
consumed chunks. -/
theorem processChunks_accF (solver : List Fix → List Candidate) (ft : Int)
    (elevs : List Int) :
    ∀ (chunks : List (List Fix)) (acc : List Fix) (i : Nat) rows accF,
    processChunks solver ft elevs chunks acc i = (.ok rows, accF) →
    accF = acc ++ chunks.flatten := by
  intro chunks
  induction chunks with
  | nil =>
    intro acc i rows accF h
    simp only [processChunks, Prod.mk.injEq] at h
    rw [← h.2]
    simp
  | cons ch rest ih =>
    intro acc i rows accF h
    simp only [processChunks] at h
    match hcand : (solver (acc ++ ch)).find? (fun cand => cand.optimal) with
    | none =>
      rw [hcand] at h
      simp at h
    | some cand =>
      rw [hcand] at h
      match hrec : (processChunks solver ft elevs rest (acc ++ ch) (i + ch.length)).1 with
      | .error e =>
        rw [hrec] at h
        simp at h
      | .ok rs =>
        rw [hrec] at h
        simp only [Prod.mk.injEq, Except.ok.injEq] at h
        obtain ⟨hrows, hacc⟩ := h
        have hF := ih (acc ++ ch) (i + ch.length) rs
          (processChunks solver ft elevs rest (acc ++ ch) (i + ch.length)).2
          (by rw [← hrec])
        rw [← hacc, hF, List.flatten_cons, List.append_assoc]

/-- Chunk-block structure of the scoring loop's output: the rows split
into one block per chunk; block `k` has the chunk's length, and all its
rows carry the xc label and average speed computed from the optimal
candidate that the solver returned for the prefix ending at chunk `k`. -/
theorem processChunks_blocks (solver : List Fix → List Candidate) (ft : Int)
    (elevs : List Int) :
    ∀ (chunks : List (List Fix)) (acc : List Fix) (i : Nat) rows accF,
    processChunks solver ft elevs chunks acc i = (.ok rows, accF) →
    ∃ blocks : List (List TargetData),
      rows = blocks.flatten ∧
      blocks.length = chunks.length ∧
      ∀ k bk ck, blocks[k]? = some bk → chunks[k]? = some ck →
        bk.length = ck.length ∧
        ∃ cand, (solver (acc ++ (chunks.take (k + 1)).flatten)).find?
            (fun x => x.optimal) = some cand ∧
          ∀ r ∈ bk,
            r.xc = xcLabel cand.code (netDistance cand.scoreInfo) ∧
            r.avgSpeed = cand.scoreInfo.distance /
              ((((ck.getLastD default).timestamp - ft : Int) : Rat) / 3600000) := by
  intro chunks
  induction chunks with
  | nil =>
    intro acc i rows accF h
    simp only [processChunks, Prod.mk.injEq, Except.ok.injEq] at h
    refine ⟨[], by rw [← h.1]; rfl, rfl, ?_⟩
    intro k bk ck hbk _
    simp at hbk
  | cons ch rest ih =>
    intro acc i rows accF h
    simp only [processChunks] at h
    match hcand : (solver (acc ++ ch)).find? (fun cand => cand.optimal) with
    | none =>
      rw [hcand] at h
      simp at h
    | some cand =>
      rw [hcand] at h
      match hrec : (processChunks solver ft elevs rest (acc ++ ch) (i + ch.length)).1 with
      | .error e =>
        rw [hrec] at h
        simp at h
      | .ok rs =>
        rw [hrec] at h
        simp only [Prod.mk.injEq, Except.ok.injEq] at h
        obtain ⟨hrows, hacc⟩ := h
        rcases ih (acc ++ ch) (i + ch.length) rs
            (processChunks solver ft elevs rest (acc ++ ch) (i + ch.length)).2
            (by rw [← hrec]) with ⟨blocksRest, hflat, hlen, hprop⟩
        refine ⟨(ch.enum.map (fun p =>
          ({ time := p.2.time, gpsAlt := p.2.gpsAltitude,
             groundElev := elevs.get? (i + p.1),
             xc := xcLabel cand.code (netDistance cand.scoreInfo),
             avgSpeed := cand.scoreInfo.distance /
               ((((ch.getLastD default).timestamp - ft : Int) : Rat) / 3600000) } : TargetData)))
          :: blocksRest, ?_, ?_, ?_⟩
        · rw [← hrows, hflat, List.flatten_cons]
        · simp [hlen]
        · intro k bk ck hbk hck
          match k with
          | 0 =>
            simp only [List.getElem?_cons_zero, Option.some_inj] at hbk hck
            subst hbk
            subst hck
            constructor
            · simp
            · refine ⟨cand, ?_, ?_⟩
              · have hpre : acc ++ ((ch :: rest).take 1).flatten = acc ++ ch := by
                  simp
                rw [hpre]
                exact hcand
              · intro r hr
                rcases List.mem_map.mp hr with ⟨p, _, hp⟩
                rw [← hp]
                exact ⟨rfl, rfl⟩
          | k + 1 =>
            simp only [List.getElem?_cons_succ] at hbk hck
            rcases hprop k bk ck hbk hck with ⟨hl, cand', hcand', hfields⟩
            refine ⟨hl, cand', ?_, hfields⟩
            have hpre : acc ++ ((ch :: rest).take (k + 2)).flatten
                = (acc ++ ch) ++ (rest.take (k + 1)).flatten := by
              rw [List.take_succ_cons, List.flatten_cons, List.append_assoc]
            rw [hpre]
            exact hcand'

/-- The elevation service behaved on one response: HTTP success, JSON
status starting with "OK", one result row per requested coordinate
(`sz` is the batch's size). -/
def batchOKb (resp : FetchResponse) (sz : Nat) : Bool :=
  match resp with
  | .httpError _ => false
  | .ok d => strStartsWith d.status "OK" && d.results.length == sz

/-! Concrete inputs used by the witnesses and counterexamples. -/

/-- A fix at the given wall-clock label and timestamp, above a fixed
point. -/
def wFix (t : String) (ts : Int) : Fix :=
  { time := t, timestamp := ts, latitude := 47, longitude := 8, gpsAltitude := 1000 }

/-- A two-fix track spanning exactly one hour. -/
def wFixes : List Fix := [wFix "10:00:00" 0, wFix "11:00:00" 3600000]

/-- An elevation service that answers every batch with status "OK" and
two result rows. -/
def wSvc : Nat → FetchResponse := fun _ =>
  .ok { status := "OK", results := [
    { dataset := "eudem25m", elevation := 100, location := { lat := 47, lng := 8 } },
    { dataset := "eudem25m", elevation := 200, location := { lat := 47, lng := 8 } }] }

/-- The optimal candidate the witness solver always returns: an FAI
route of gross distance 10 km carrying a 5 km penalty. -/
def wCand : Candidate :=
  { optimal := true, code := "fai", scoreInfo := { distance := 10, penalty := some 5 } }

/-- A solver whose first candidate is optimal: an FAI route of gross
distance 10 km carrying a 5 km penalty. -/
def wSolver : List Fix → List Candidate := fun _ => [wCand]

/-- An elevation service that always fails with HTTP 500. -/
def wSvcBad : Nat → FetchResponse := fun _ => .httpError 500

/-- A response body carrying a non-"OK" JSON status and two rows. -/
def wBadData : ElevationData :=
  { status := "INVALID_REQUEST", results := [
    { dataset := "eudem25m", elevation := 100, location := { lat := 47, lng := 8 } },
    { dataset := "eudem25m", elevation := 200, location := { lat := 47, lng := 8 } }] }

/-- An elevation service whose responses are HTTP successes carrying a
non-"OK" JSON status (and the right number of rows). -/
def wSvcBadStatus : Nat → FetchResponse := fun _ => .ok wBadData

/-- C7: For an empty input track (zero fixes), processing returns an
empty output and performs zero external calls of either kind: no
elevation-service HTTP requests and no solver invocations. -/
theorem processData_empty_track (svc : Nat → FetchResponse) (server : String)
    (solver : List Fix → List Candidate) :
    processData svc server solver [] = (.ok [], []) ∧
    elevationRequests svc server [] = [] ∧
    scoringPrefixes [] = [] := by
  refine ⟨?_, ?_, ?_⟩
  · simp [processData, getGroundElevations, getGroundElevationsFull, chunksOf_nil,
      fetchBatches]
  · simp [elevationRequests, getGroundElevationsFull, chunksOf_nil, fetchBatches]
  · simp [scoringPrefixes]

/-- C6: If any elevation batch returns a non-success HTTP status, the
whole lookup raises a fatal error, processData aborts, and the run
produces no output file (output lines exist only when the whole
computation completed). -/
theorem http_error_aborts_run (svc : Nat → FetchResponse) (server : String)
    (solver : List Fix → List Candidate) (flightDate : String) (fixes : List Fix)
    (hfail : ∃ b, b < (chunksOf 100 fixes).length ∧ ∃ s, svc b = .httpError s) :
    (∃ e, getGroundElevations svc server fixes = .error e) ∧
    (∃ e, (processData svc server solver fixes).1 = .error e) ∧
    ∀ lines, runPipeline svc server solver flightDate fixes ≠ .ok lines := by
  have hfail' : ∃ b, b < (chunksOf 100 fixes).length ∧ ∃ s, svc (0 + b) = .httpError s := by
    simpa using hfail
  rcases fetchBatches_error svc server (chunksOf 100 fixes) 0 hfail' with ⟨e, he⟩
  have hgge : getGroundElevations svc server fixes = .error e := he
  refine ⟨⟨e, hgge⟩, ⟨e, ?_⟩, ?_⟩
  · simp only [processData, hgge]
  · intro lines
    simp only [runPipeline, processData, hgge]
    intro hcontra
    cases hcontra

/-- Witness for C6: a one-fix track against a service that replies
HTTP 500 to its only batch. -/
theorem http_error_aborts_run_witness :
    (∃ b, b < (chunksOf 100 [wFix "10:00:00" 0]).length ∧
      ∃ s, wSvcBad b = .httpError s) ∧
    ((∃ e, getGroundElevations wSvcBad "s" [wFix "10:00:00" 0] = .error e) ∧
     (∃ e, (processData wSvcBad "s" wSolver [wFix "10:00:00" 0]).1 = .error e) ∧
     ∀ lines, runPipeline wSvcBad "s" wSolver "2024-01-01" [wFix "10:00:00" 0] ≠ .ok lines) :=
  ⟨⟨0, by decide, 500, rfl⟩,
    http_error_aborts_run wSvcBad "s" wSolver "2024-01-01" [wFix "10:00:00" 0]
      ⟨0, by decide, 500, rfl⟩⟩

/-- C10: processData empties the track's fix list and re-extends it one
chunk per iteration; whenever it returns successfully the fix list has
been restored to the original sequence. -/
theorem processData_restores_fixes (svc : Nat → FetchResponse) (server : String)
    (solver : List Fix → List Candidate) (fixes : List Fix)
    (h : ∃ out, (processData svc server solver fixes).1 = .ok out) :
    (processData svc server solver fixes).2 = fixes := by
  rcases h with ⟨out, h⟩
  match hE : getGroundElevations svc server fixes with
  | .error e =>
    simp only [processData, hE] at h
    cases h
  | .ok elevs =>
    match fixes with
    | [] => simp [processData, hE]
    | f :: fs =>
      simp only [processData, hE] at h ⊢
      have hP : processChunks solver f.timestamp elevs (chunksOf 60 (f :: fs)) [] 0
          = (.ok out,
             (processChunks solver f.timestamp elevs (chunksOf 60 (f :: fs)) [] 0).2) := by
        rw [← h]
      have := processChunks_accF solver f.timestamp elevs (chunksOf 60 (f :: fs)) [] 0 out
        (processChunks solver f.timestamp elevs (chunksOf 60 (f :: fs)) [] 0).2 hP
      rw [this, List.nil_append, chunksOf_flatten (by omega)]

/-- Witness for C10: the two-fix track processed against the healthy
service and terminating solver leaves the fix list unchanged. -/
theorem processData_restores_fixes_witness :
    (processData wSvc "s" wSolver wFixes).2 = wFixes :=
  processData_restores_fixes wSvc "s" wSolver wFixes ⟨_, rfl⟩

/-- From full batch success, no batch is an HTTP error. -/
theorem batchOKb_no_httpError {svc : Nat → FetchResponse} {fixes : List Fix}
    (hsvc : ∀ b, b < (chunksOf 100 fixes).length →
      batchOKb (svc b) ((chunksOf 100 fixes).getD b []).length = true) :
    ∀ j, j < (chunksOf 100 fixes).length → ∀ s, svc (0 + j) ≠ .httpError s := by
  intro j hj s hcontra
  have h := hsvc j hj
  rw [Nat.zero_add] at hcontra
  rw [hcontra] at h
  simp [batchOKb] at h

/-- C1: For every non-empty track whose elevation batches all report
success and whose solver terminates with an optimal candidate for every
prefix, the processed output has exactly one row per fix and
`output[i].time = track.fixes[i].time` at every index. -/
theorem processData_row_per_fix (svc : Nat → FetchResponse) (server : String)
    (solver : List Fix → List Candidate) (fixes : List Fix)
    (hne : fixes ≠ [])
    (hsvc : ∀ b, b < (chunksOf 100 fixes).length →
      batchOKb (svc b) ((chunksOf 100 fixes).getD b []).length = true)
    (hsol : solverTotal solver) :
    ∃ out, (processData svc server solver fixes).1 = .ok out ∧
      out.length = fixes.length ∧
      ∀ i : Nat, out[i]?.map (fun r : TargetData => r.time)
        = fixes[i]?.map (fun f : Fix => f.time) := by
  have hok := batchOKb_no_httpError hsvc
  have hfetch := fetchBatches_ok svc server (chunksOf 100 fixes) 0 hok
  have hE : getGroundElevations svc server fixes =
      .ok (((List.range (chunksOf 100 fixes).length).map
        (fun j => respElevs (svc (0 + j)))).flatten) := by
    unfold getGroundElevations getGroundElevationsFull
    rw [hfetch]
  match fixes, hne with
  | f :: fs, _ =>
    rcases processChunks_isOk solver f.timestamp
        (((List.range (chunksOf 100 (f :: fs)).length).map
          (fun j => respElevs (svc (0 + j)))).flatten)
        hsol (chunksOf 60 (f :: fs)) [] 0 with ⟨rows, accF, hP⟩
    refine ⟨rows, ?_, ?_, ?_⟩
    · simp only [processData, hE, hP]
    · have htime := processChunks_time solver f.timestamp _ (chunksOf 60 (f :: fs)) [] 0
        rows accF hP
      rw [chunksOf_flatten (by omega)] at htime
      have := congrArg List.length htime
      simpa using this
    · intro i
      have htime := processChunks_time solver f.timestamp _ (chunksOf 60 (f :: fs)) [] 0
        rows accF hP
      rw [chunksOf_flatten (by omega)] at htime
      have h1 : (rows.map (fun r => r.time))[i]? = ((f :: fs).map (fun x => x.time))[i]? := by
        rw [htime]
      rw [List.getElem?_map, List.getElem?_map] at h1
      exact h1

/-- Witness for C1: the two-fix track, the healthy service, and the
immediately-optimal solver. -/
theorem processData_row_per_fix_witness :
    ∃ out, (processData wSvc "s" wSolver wFixes).1 = .ok out ∧
      out.length = wFixes.length ∧
      ∀ i : Nat, out[i]?.map (fun r : TargetData => r.time)
        = wFixes[i]?.map (fun f : Fix => f.time) :=
  processData_row_per_fix wSvc "s" wSolver wFixes (by decide) (by decide) (fun l => rfl)

/-- A position below `n * k` of the list guarantees at least `k + 1`
chunks. -/
theorem chunksOf_length_ge (n : Nat) (hn : n ≠ 0) :
    ∀ (k : Nat) (l : List α), n * k < l.length → k < (chunksOf n l).length := by
  intro k
  induction k with
  | zero =>
    intro l h
    have hl : l ≠ [] := by
      intro hcontra
      subst hcontra
      simp at h
    rw [chunksOf_eq_cons hn hl]
    simp
  | succ k ih =>
    intro l h
    have hl : l ≠ [] := by
      intro hcontra
      subst hcontra
      simp at h
    rw [chunksOf_eq_cons hn hl]
    simp only [List.length_cons]
    have : n * k < (l.drop n).length := by
      rw [List.length_drop]
      have : n * (k + 1) = n * k + n := by ring
      omega
    exact Nat.succ_lt_succ (ih (l.drop n) this)

/-- Two block lists of equal shape flatten to equal lengths. -/
theorem flatten_length_eq {γ : Type} {δ : Type} :
    ∀ (bs : List (List γ)) (cs : List (List δ)), bs.length = cs.length →
    (∀ (j : Nat) (b : List γ) (c : List δ), bs[j]? = some b → cs[j]? = some c → b.length = c.length) →
    bs.flatten.length = cs.flatten.length := by
  intro bs
  induction bs with
  | nil =>
    intro cs hlen _
    have : cs = [] := List.length_eq_zero.mp (by simpa using hlen.symm)
    subst this
    rfl
  | cons b bs ih =>
    intro cs hlen hsz
    match cs with
    | [] => simp at hlen
    | c :: cs =>
      simp only [List.flatten_cons, List.length_append]
      rw [hsz 0 b c (by simp) (by simp),
        ih cs (by simpa using hlen)
          (fun j x y hx hy => hsz (j + 1) x y (by simpa using hx) (by simpa using hy))]

/-- C2: A lookup over `N` coordinates issues `ceil(N/100)` requests in
consecutive batches of at most 100 coordinates, and when every batch
reports success the returned list has length `N` and position `i`
holds the elevation the service returned for coordinate `i` (position
`i mod 100` of batch `i / 100`). -/
theorem lookup_batching_alignment (svc : Nat → FetchResponse) (server : String)
    (fixes : List Fix)
    (hsvc : ∀ b, b < (chunksOf 100 fixes).length →
      batchOKb (svc b) ((chunksOf 100 fixes).getD b []).length = true) :
    (elevationRequests svc server fixes).length = (fixes.length + 99) / 100 ∧
    (∀ (b : Nat) (ch : List Fix), (chunksOf 100 fixes)[b]? = some ch → ch.length ≤ 100) ∧
    ∃ l, getGroundElevations svc server fixes = .ok l ∧ l.length = fixes.length ∧
      ∀ i : Nat, i < fixes.length → l[i]? = (respResults (svc (i / 100)))[i % 100]? := by
  have hok := batchOKb_no_httpError hsvc
  have hfetch := fetchBatches_ok svc server (chunksOf 100 fixes) 0 hok
  -- the per-batch contributions and their relation to the batches
  have hre : ∀ j, j < (chunksOf 100 fixes).length →
      respElevs (svc j) = respResults (svc j) ∧
      (respResults (svc j)).length = ((chunksOf 100 fixes).getD j []).length := by
    intro j hj
    have h := hsvc j hj
    match hs : svc j with
    | .httpError s => rw [hs] at h; simp [batchOKb] at h
    | .ok d =>
      rw [hs] at h
      simp only [batchOKb, Bool.and_eq_true, beq_iff_eq] at h
      refine ⟨?_, ?_⟩
      · simp [respElevs, respResults, h.1]
      · simp only [respResults, List.length_map]
        exact h.2
  refine ⟨?_, ?_, ?_⟩
  · have h1 : elevationRequests svc server fixes =
        (chunksOf 100 fixes).map (fun ch => server ++ "?locations=" ++ locationsQuery ch) := by
      unfold elevationRequests getGroundElevationsFull
      rw [hfetch]
    rw [h1, List.length_map, chunksOf_hundred_length]
  · intro b ch hch
    have := chunksOf_getElem?_length 100 (by omega) fixes b hch
    omega
  · have hE : getGroundElevations svc server fixes =
        .ok (((List.range (chunksOf 100 fixes).length).map
          (fun j => respElevs (svc (0 + j)))).flatten) := by
      unfold getGroundElevations getGroundElevationsFull
      rw [hfetch]
    refine ⟨_, hE, ?_, ?_⟩
    · rw [flatten_length_eq
        ((List.range (chunksOf 100 fixes).length).map (fun j => respElevs (svc (0 + j))))
        (chunksOf 100 fixes) (by simp) ?_]
      · rw [chunksOf_flatten (by omega)]
      · intro j bj cj hbj hcj
        have hj : j < (chunksOf 100 fixes).length := by
          have := (List.getElem?_eq_some.mp hcj).1
          exact this
        rw [List.getElem?_map, List.getElem?_range hj] at hbj
        simp at hbj
        have hgd : ((chunksOf 100 fixes).getD j []).length = cj.length := by
          rw [List.getD_eq_getElem?_getD, hcj]
          rfl
        rw [← hbj, (hre j hj).1, (hre j hj).2, hgd]
    · intro i hi
      have hik : 100 * (i / 100) + i % 100 = i := Nat.div_add_mod i 100
      have hk : i / 100 < (chunksOf 100 fixes).length := by
        apply chunksOf_length_ge 100 (by omega)
        omega
      have hck : (chunksOf 100 fixes)[i / 100]? = some ((chunksOf 100 fixes).getD (i / 100) []) := by
        rw [List.getElem?_eq_getElem hk]
        rw [List.getD_eq_getElem?_getD, List.getElem?_eq_getElem hk]
        rfl
      have hlenk := chunksOf_getElem?_length 100 (by omega) fixes (i / 100) hck
      have hr : i % 100 < (respElevs (svc (0 + (i / 100)))).length := by
        rw [Nat.zero_add, (hre _ hk).1, (hre _ hk).2, hlenk]
        have h100 : i % 100 < 100 := Nat.mod_lt _ (by omega)
        omega
      have hblocks := flatten_getElem_blocks 100
        ((List.range (chunksOf 100 fixes).length).map (fun j => respElevs (svc (0 + j))))
        (i / 100) (i % 100) ?_ ?_ hr
      · rw [hik] at hblocks
        rw [hblocks, Nat.zero_add, (hre _ hk).1]
      · intro j hj blk hblk
        have hjlen : j < (chunksOf 100 fixes).length := lt_trans hj hk
        rw [List.getElem?_map, List.getElem?_range hjlen] at hblk
        simp at hblk
        have hcj : (chunksOf 100 fixes)[j]? = some ((chunksOf 100 fixes).getD j []) := by
          rw [List.getElem?_eq_getElem hjlen, List.getD_eq_getElem?_getD,
            List.getElem?_eq_getElem hjlen]
          rfl
        have := chunksOf_getElem?_length_eq 100 (by omega) fixes hj hcj hck
        rw [← hblk, (hre j hjlen).1, (hre j hjlen).2]
        exact this
      · rw [List.getElem?_map, List.getElem?_range hk]
        rfl

/-- An in-range index read through `getElem?` yields the `getD`
value. -/
theorem getElem?_eq_some_getD {γ : Type} {l : List γ} {k : Nat}
    (hk : k < l.length) (d : γ) : l[k]? = some (l.getD k d) := by
  rw [List.getElem?_eq_getElem hk, List.getD_eq_getElem?_getD,
    List.getElem?_eq_getElem hk]
  rfl

/-- Witness for C2: the two-fix track and the healthy service. -/
theorem lookup_batching_alignment_witness :
    (elevationRequests wSvc "s" wFixes).length = (wFixes.length + 99) / 100 ∧
    (∀ (b : Nat) (ch : List Fix), (chunksOf 100 wFixes)[b]? = some ch → ch.length ≤ 100) ∧
    ∃ l, getGroundElevations wSvc "s" wFixes = .ok l ∧ l.length = wFixes.length ∧
      ∀ i : Nat, i < wFixes.length → l[i]? = (respResults (wSvc (i / 100)))[i % 100]? :=
  lookup_batching_alignment wSvc "s" wFixes (by decide)

/-- Common access to the chunk structure of a successful processData
run: its output flattens per-chunk blocks whose rows share the chunk's
xc label and average speed. -/
theorem processData_ok_blocks (svc : Nat → FetchResponse) (server : String)
    (solver : List Fix → List Candidate) (f : Fix) (fs : List Fix)
    (out : List TargetData)
    (h : (processData svc server solver (f :: fs)).1 = .ok out) :
    ∃ elevs, getGroundElevations svc server (f :: fs) = .ok elevs ∧
    ∃ blocks : List (List TargetData),
      out = blocks.flatten ∧
      blocks.length = (chunksOf 60 (f :: fs)).length ∧
      ∀ k bk ck, blocks[k]? = some bk → (chunksOf 60 (f :: fs))[k]? = some ck →
        bk.length = ck.length ∧
        ∃ cand, (solver ((f :: fs).take (60 * (k + 1)))).find?
            (fun x => x.optimal) = some cand ∧
          ∀ r ∈ bk,
            r.xc = xcLabel cand.code (netDistance cand.scoreInfo) ∧
            r.avgSpeed = cand.scoreInfo.distance /
              ((((ck.getLastD default).timestamp - f.timestamp : Int) : Rat) / 3600000) := by
  match hE : getGroundElevations svc server (f :: fs) with
  | .error e =>
    simp only [processData, hE] at h
    cases h
  | .ok elevs =>
    refine ⟨elevs, rfl, ?_⟩
    simp only [processData, hE] at h
    have hP : processChunks solver f.timestamp elevs (chunksOf 60 (f :: fs)) [] 0
        = (.ok out,
           (processChunks solver f.timestamp elevs (chunksOf 60 (f :: fs)) [] 0).2) := by
      rw [← h]
    rcases processChunks_blocks solver f.timestamp elevs (chunksOf 60 (f :: fs)) [] 0 out
      _ hP with ⟨blocks, hflat, hlen, hprop⟩
    refine ⟨blocks, hflat, hlen, ?_⟩
    intro k bk ck hbk hck
    rcases hprop k bk ck hbk hck with ⟨hbklen, cand, hcand, hfields⟩
    refine ⟨hbklen, cand, ?_, hfields⟩
    rw [List.nil_append, chunksOf_take_flatten (by omega)] at hcand
    exact hcand

/-- Inside a successful run, the row at a global index within chunk `k`
is a member of block `k`. -/
theorem processData_row_mem_block {blocks : List (List TargetData)}
    {chunks : List (List Fix)} {out : List TargetData} {N k i : Nat}
    (hflat : out = blocks.flatten)
    (hlen : blocks.length = chunks.length)
    (hsizes : ∀ (j : Nat) (bj : List TargetData) (cj : List Fix),
      blocks[j]? = some bj → chunks[j]? = some cj → bj.length = cj.length)
    (hchlen : ∀ (j : Nat) (cj : List Fix), chunks[j]? = some cj →
      cj.length = min 60 (N - 60 * j))
    (hk : k < chunks.length)
    (hlo : 60 * k ≤ i) (hhi : i < min (60 * (k + 1)) N) :
    ∃ r, out[i]? = some r ∧ r ∈ blocks.getD k [] := by
  have hk' : k < blocks.length := by omega
  have hbk : blocks[k]? = some (blocks.getD k []) := getElem?_eq_some_getD hk' []
  have hck : chunks[k]? = some (chunks.getD k []) := getElem?_eq_some_getD hk []
  have hbklen : (blocks.getD k []).length = (chunks.getD k []).length :=
    hsizes k _ _ hbk hck
  have hcklen : (chunks.getD k []).length = min 60 (N - 60 * k) := hchlen k _ hck
  have hr : i - 60 * k < (blocks.getD k []).length := by
    rw [hbklen, hcklen]
    have : 60 * (k + 1) = 60 * k + 60 := by ring
    omega
  have hkN : 60 * k < N := by omega
  have hsz : ∀ j, j < k → ∀ bj, blocks[j]? = some bj → bj.length = 60 := by
    intro j hj bj hbj
    have hjlen : j < chunks.length := lt_trans hj hk
    have hcj : chunks[j]? = some (chunks.getD j []) := getElem?_eq_some_getD hjlen []
    have h1 := hsizes j _ _ hbj hcj
    have h2 := hchlen j _ hcj
    omega
  have hblocks := flatten_getElem_blocks 60 blocks k (i - 60 * k) hsz hbk hr
  have hi60 : 60 * k + (i - 60 * k) = i := by omega
  rw [hi60] at hblocks
  rw [hflat, hblocks, List.getElem?_eq_getElem hr]
  exact ⟨_, rfl, List.getElem_mem hr⟩

/-- C3: With chunk size 60, all output rows whose fix index lies in
`[60k, min(60(k+1), total))` carry an identical xc label (route label
and scoring distance) and an identical average speed, and that shared
value is the one computed from the optimal candidate the solver
returned for chunk `k`'s own prefix `fixes.take (60*(k+1))` — so later
iterations never overwrite an earlier chunk's triple: every chunk keeps
what was computed for it at its own iteration. -/
theorem chunk_rows_share_score (svc : Nat → FetchResponse) (server : String)
    (solver : List Fix → List Candidate) (fixes : List Fix)
    (out : List TargetData)
    (h : (processData svc server solver fixes).1 = .ok out)
    (k : Nat) (cand : Candidate)
    (hcand : (solver (fixes.take (60 * (k + 1)))).find? (fun x => x.optimal) = some cand)
    (i1 i2 : Nat)
    (h1lo : 60 * k ≤ i1) (h1hi : i1 < min (60 * (k + 1)) fixes.length)
    (h2lo : 60 * k ≤ i2) (h2hi : i2 < min (60 * (k + 1)) fixes.length) :
    out[i1]?.map (fun r : TargetData => r.xc)
      = some (xcLabel cand.code (netDistance cand.scoreInfo)) ∧
    out[i1]?.map (fun r : TargetData => r.avgSpeed)
      = some (cand.scoreInfo.distance /
          ((((((chunksOf 60 fixes).getD k []).getLastD default).timestamp
              - (fixes.getD 0 default).timestamp : Int) : Rat) / 3600000)) ∧
    out[i1]?.map (fun r : TargetData => r.xc)
      = out[i2]?.map (fun r : TargetData => r.xc) ∧
    out[i1]?.map (fun r : TargetData => r.avgSpeed)
      = out[i2]?.map (fun r : TargetData => r.avgSpeed) := by
  match fixes, h1hi with
  | f :: fs, h1hi =>
    rcases processData_ok_blocks svc server solver f fs out h with
      ⟨elevs, _, blocks, hflat, hlen, hprop⟩
    have hk : k < (chunksOf 60 (f :: fs)).length := by
      apply chunksOf_length_ge 60 (by omega)
      have : 60 * (k + 1) = 60 * k + 60 := by ring
      omega
    have hchlen : ∀ (j : Nat) (cj : List Fix), (chunksOf 60 (f :: fs))[j]? = some cj →
        cj.length = min 60 ((f :: fs).length - 60 * j) :=
      fun j cj hcj => chunksOf_getElem?_length 60 (by omega) (f :: fs) j hcj
    have hsizes : ∀ (j : Nat) (bj : List TargetData) (cj : List Fix),
        blocks[j]? = some bj → (chunksOf 60 (f :: fs))[j]? = some cj →
        bj.length = cj.length :=
      fun j bj cj hbj hcj => (hprop j bj cj hbj hcj).1
    rcases processData_row_mem_block hflat hlen hsizes hchlen hk h1lo h1hi with
      ⟨r1, hr1, hm1⟩
    rcases processData_row_mem_block hflat hlen hsizes hchlen hk h2lo h2hi with
      ⟨r2, hr2, hm2⟩
    have hk' : k < blocks.length := by omega
    have hbk : blocks[k]? = some (blocks.getD k []) := getElem?_eq_some_getD hk' []
    have hck : (chunksOf 60 (f :: fs))[k]? =
        some ((chunksOf 60 (f :: fs)).getD k []) := getElem?_eq_some_getD hk []
    rcases hprop k _ _ hbk hck with ⟨_, cand', hcand', hfields⟩
    have hceq : cand' = cand := by
      rw [hcand'] at hcand
      exact Option.some_inj.mp hcand
    subst hceq
    rw [hr1, hr2]
    refine ⟨?_, ?_, ?_, ?_⟩
    · show some r1.xc = _
      rw [(hfields r1 hm1).1]
    · show some r1.avgSpeed = _
      rw [(hfields r1 hm1).2]
      rfl
    · show some r1.xc = some r2.xc
      rw [(hfields r1 hm1).1, (hfields r2 hm2).1]
    · show some r1.avgSpeed = some r2.avgSpeed
      rw [(hfields r1 hm1).2, (hfields r2 hm2).2]

/-- Witness for C3: in the one-chunk two-fix run both rows carry
exactly the triple computed from the chunk's own prefix candidate, and
share it. -/
theorem chunk_rows_share_score_witness :
    ∃ out, (processData wSvc "s" wSolver wFixes).1 = .ok out ∧
      (out[0]?.map (fun r : TargetData => r.xc)
         = some (xcLabel wCand.code (netDistance wCand.scoreInfo)) ∧
       out[0]?.map (fun r : TargetData => r.avgSpeed)
         = some (wCand.scoreInfo.distance /
             ((((((chunksOf 60 wFixes).getD 0 []).getLastD default).timestamp
                 - (wFixes.getD 0 default).timestamp : Int) : Rat) / 3600000)) ∧
       out[0]?.map (fun r : TargetData => r.xc)
         = out[1]?.map (fun r : TargetData => r.xc) ∧
       out[0]?.map (fun r : TargetData => r.avgSpeed)
         = out[1]?.map (fun r : TargetData => r.avgSpeed)) :=
  ⟨_, rfl, chunk_rows_share_score wSvc "s" wSolver wFixes _ rfl 0 wCand rfl 0 1
    (by omega) (by decide) (by omega) (by decide)⟩

/-- C4 (amended): the chunk's averageSpeed is computed from the GROSS
solved distance (`scoreInfo.distance`, penalty not subtracted): with
`T` the chunk's last fix timestamp minus the track's first fix
timestamp in milliseconds, `averageSpeed = distance / (T / 3600000)`. -/
theorem avg_speed_uses_gross_distance (svc : Nat → FetchResponse) (server : String)
    (solver : List Fix → List Candidate) (fixes : List Fix)
    (out : List TargetData)
    (h : (processData svc server solver fixes).1 = .ok out)
    (k : Nat) (cand : Candidate)
    (hcand : (solver (fixes.take (60 * (k + 1)))).find? (fun x => x.optimal) = some cand)
    (i : Nat) (hlo : 60 * k ≤ i) (hhi : i < min (60 * (k + 1)) fixes.length) :
    out[i]?.map (fun r : TargetData => r.avgSpeed)
      = some (cand.scoreInfo.distance /
          ((((((chunksOf 60 fixes).getD k []).getLastD default).timestamp
              - (fixes.getD 0 default).timestamp : Int) : Rat) / 3600000)) := by
  match fixes, hhi with
  | f :: fs, hhi =>
    rcases processData_ok_blocks svc server solver f fs out h with
      ⟨elevs, _, blocks, hflat, hlen, hprop⟩
    have hk : k < (chunksOf 60 (f :: fs)).length := by
      apply chunksOf_length_ge 60 (by omega)
      have : 60 * (k + 1) = 60 * k + 60 := by ring
      omega
    have hchlen : ∀ (j : Nat) (cj : List Fix), (chunksOf 60 (f :: fs))[j]? = some cj →
        cj.length = min 60 ((f :: fs).length - 60 * j) :=
      fun j cj hcj => chunksOf_getElem?_length 60 (by omega) (f :: fs) j hcj
    have hsizes : ∀ (j : Nat) (bj : List TargetData) (cj : List Fix),
        blocks[j]? = some bj → (chunksOf 60 (f :: fs))[j]? = some cj →
        bj.length = cj.length :=
      fun j bj cj hbj hcj => (hprop j bj cj hbj hcj).1
    rcases processData_row_mem_block hflat hlen hsizes hchlen hk hlo hhi with
      ⟨r, hr, hm⟩
    have hk' : k < blocks.length := by omega
    have hbk : blocks[k]? = some (blocks.getD k []) := getElem?_eq_some_getD hk' []
    have hck : (chunksOf 60 (f :: fs))[k]? =
        some ((chunksOf 60 (f :: fs)).getD k []) := getElem?_eq_some_getD hk []
    rcases hprop k _ _ hbk hck with ⟨_, cand', hcand', hfields⟩
    have hceq : cand' = cand := by
      rw [hcand'] at hcand
      exact Option.some_inj.mp hcand
    subst hceq
    rw [hr]
    show some r.avgSpeed = _
    rw [(hfields r hm).2]
    rfl

/-- Counterexample for C4: a one-hour two-fix track scored as an FAI
route of gross distance 10 km with a 5 km penalty.  The claim's formula
(net distance over elapsed hours) yields 5 km/h, but every output row
carries 10 km/h: the code divides the gross distance, not the net one,
by the elapsed time. -/
theorem avg_speed_net_distance_cex :
    ((processData wSvc "s" wSolver wFixes).1.toOption.map
      (fun out => out.map (fun r : TargetData => r.avgSpeed))) = some [10, 10] ∧
    netDistance { distance := 10, penalty := some 5 } /
      ((((3600000 : Int) - 0 : Int) : Rat) / 3600000) = 5 ∧
    (10 : Rat) ≠ 5 := by
  refine ⟨?_, ?_, ?_⟩
  · simp only [processData, getGroundElevations, getGroundElevationsFull, chunksOf,
      chunksOfFuel, fetchBatches, wFixes, wSvc, wSolver, wCand, wFix, processChunks,
      respElevs, strStartsWith, List.find?, List.enum]
    norm_num [Except.toOption]
  · norm_num [netDistance]
  · norm_num

/-- Witness for the amended C4: the first output row of the two-fix run
divides the gross 10 km by the one-hour elapsed time. -/
theorem avg_speed_uses_gross_distance_witness :
    ∃ out, (processData wSvc "s" wSolver wFixes).1 = .ok out ∧
      out[0]?.map (fun r : TargetData => r.avgSpeed)
        = some ((wCand.scoreInfo).distance /
            ((((((chunksOf 60 wFixes).getD 0 []).getLastD default).timestamp
                - (wFixes.getD 0 default).timestamp : Int) : Rat) / 3600000)) :=
  ⟨_, rfl, avg_speed_uses_gross_distance wSvc "s" wSolver wFixes _ rfl 0 _ rfl 0
    (by omega) (by decide)⟩

/-- Taking `n * k` elements of a flattened list keeps exactly the
first `k` blocks when those blocks all have length `n`. -/
theorem flatten_take_blocks (n : Nat) :
    ∀ (ls : List (List α)) (k : Nat), k ≤ ls.length →
    (∀ j, j < k → ∀ b, ls[j]? = some b → b.length = n) →
    ls.flatten.take (n * k) = (ls.take k).flatten := by
  intro ls
  induction ls with
  | nil =>
    intro k hk _
    have : k = 0 := by simpa using hk
    subst this
    simp
  | cons c rest ih =>
    intro k hk hsz
    match k with
    | 0 => simp
    | k + 1 =>
      have hc : c.length = n := hsz 0 (by omega) c (by simp)
      rw [List.flatten_cons]
      have hnk : n * (k + 1) = c.length + n * k := by rw [hc]; ring
      rw [hnk, List.take_append, List.take_succ_cons, List.flatten_cons]
      congr 1
      exact ih k (by simpa using hk)
        (fun j hj d hd => hsz (j + 1) (by omega) d (by simpa using hd))

/-- The positionally aligned elevation sequence the elevation service
produced for the whole track: every batch's result rows, in batch
order, the per-batch status field ignored. -/
def allResults (svc : Nat → FetchResponse) (fixes : List Fix) : List Int :=
  ((List.range (chunksOf 100 fixes).length).map (fun j => respResults (svc j))).flatten

/-- C5: When one batch's HTTP response is successful but its status
field does not start with "OK" (all other batches fully succeeding and
the bad batch's row count matching its request), the lookup raises no
error and contributes zero elevations for that batch: the returned
sequence is that batch's slice cut out of the aligned sequence, hence
shorter than the track, and every element from the failed batch onward
sits below the fix it belongs to (shifted left by the batch's size). -/
theorem bad_status_shortens_and_misaligns (svc : Nat → FetchResponse)
    (server : String) (fixes : List Fix) (b : Nat) (d : ElevationData)
    (hb : b < (chunksOf 100 fixes).length)
    (hbad : svc b = .ok d)
    (hst : strStartsWith d.status "OK" = false)
    (hdlen : d.results.length = ((chunksOf 100 fixes).getD b []).length)
    (hok : ∀ j, j < (chunksOf 100 fixes).length → j ≠ b →
      batchOKb (svc j) ((chunksOf 100 fixes).getD j []).length = true) :
    ∃ l, getGroundElevations svc server fixes = .ok l ∧
      l.length = fixes.length - ((chunksOf 100 fixes).getD b []).length ∧
      l.length < fixes.length ∧
      l = (allResults svc fixes).take (100 * b)
          ++ (allResults svc fixes).drop
              (100 * b + ((chunksOf 100 fixes).getD b []).length) := by
  have hnoerr : ∀ j, j < (chunksOf 100 fixes).length → ∀ s, svc (0 + j) ≠ .httpError s := by
    intro j hj s hcontra
    rw [Nat.zero_add] at hcontra
    by_cases hjb : j = b
    · subst hjb
      rw [hbad] at hcontra
      cases hcontra
    · have h := hok j hj hjb
      rw [hcontra] at h
      simp [batchOKb] at h
  have hfetch := fetchBatches_ok svc server (chunksOf 100 fixes) 0 hnoerr
  have hE : getGroundElevations svc server fixes =
      .ok (((List.range (chunksOf 100 fixes).length).map
        (fun j => respElevs (svc (0 + j)))).flatten) := by
    unfold getGroundElevations getGroundElevationsFull
    rw [hfetch]
  -- clean up the 0 + j index
  have hz : ((List.range (chunksOf 100 fixes).length).map
      (fun j => respElevs (svc (0 + j))))
      = (List.range (chunksOf 100 fixes).length).map (fun j => respElevs (svc j)) := by
    apply List.map_congr_left
    intro j _
    rw [Nat.zero_add]
  rw [hz] at hE
  set numB := (chunksOf 100 fixes).length with hnumB
  set bs := (List.range numB).map (fun j => respElevs (svc j)) with hbs
  set BS := (List.range numB).map (fun j => respResults (svc j)) with hBS
  -- properties of the non-failing batches
  have hre : ∀ j, j < numB → j ≠ b →
      respElevs (svc j) = respResults (svc j) ∧
      (respResults (svc j)).length = ((chunksOf 100 fixes).getD j []).length := by
    intro j hj hjb
    have h := hok j hj hjb
    match hs : svc j with
    | .httpError s => rw [hs] at h; simp [batchOKb] at h
    | .ok dj =>
      rw [hs] at h
      simp only [batchOKb, Bool.and_eq_true, beq_iff_eq] at h
      exact ⟨by simp [respElevs, respResults, h.1], by
        simp only [respResults, List.length_map]; exact h.2⟩
  have hreb : respElevs (svc b) = [] := by
    simp [respElevs, hbad, hst]
  have hresb : (respResults (svc b)).length = ((chunksOf 100 fixes).getD b []).length := by
    simp only [respResults, hbad, List.length_map]
    exact hdlen
  have hlenbs : bs.length = numB := by simp [hbs]
  have hlenBS : BS.length = numB := by simp [hBS]
  -- sizes of the chunks
  have hck : (chunksOf 100 fixes)[b]? = some ((chunksOf 100 fixes).getD b []) :=
    getElem?_eq_some_getD hb []
  have hsz100 : ∀ j, j < b → ∀ blk, BS[j]? = some blk → blk.length = 100 := by
    intro j hj blk hblk
    have hjlen : j < numB := lt_trans hj hb
    rw [hBS, List.getElem?_map, List.getElem?_range hjlen] at hblk
    simp at hblk
    have hcj : (chunksOf 100 fixes)[j]? = some ((chunksOf 100 fixes).getD j []) :=
      getElem?_eq_some_getD hjlen []
    have hchunk := chunksOf_getElem?_length_eq 100 (by omega) fixes hj hcj hck
    rw [← hblk, (hre j hjlen (by omega)).2]
    exact hchunk
  -- BS flattens to the track's length
  have hBSlen : BS.flatten.length = fixes.length := by
    rw [flatten_length_eq BS (chunksOf 100 fixes) (by simp [hBS]) ?_]
    · rw [chunksOf_flatten (by omega)]
    · intro j bj cj hbj hcj
      have hj : j < numB := (List.getElem?_eq_some.mp hcj).1
      rw [hBS, List.getElem?_map, List.getElem?_range hj] at hbj
      simp at hbj
      have hgd : ((chunksOf 100 fixes).getD j []).length = cj.length := by
        rw [List.getD_eq_getElem?_getD, hcj]
        rfl
      by_cases hjb : j = b
      · subst hjb
        rw [← hbj, hresb, hgd]
      · rw [← hbj, (hre j hj hjb).2, hgd]
  -- the returned list: bs with an empty block at position b
  have hbsb : bs[b]? = some [] := by
    rw [hbs, List.getElem?_map, List.getElem?_range hb]
    simp [hreb]
  have hbstake : bs.take b = BS.take b := by
    rw [hbs, hBS, ← List.map_take, ← List.map_take, List.take_range]
    apply List.map_congr_left
    intro j hj
    have hjb : j < b := by
      have := List.mem_range.mp hj
      omega
    exact (hre j (lt_trans hjb hb) (by omega)).1
  have hbsdrop : bs.drop (b + 1) = BS.drop (b + 1) := by
    apply List.ext_getElem?
    intro m
    rw [List.getElem?_drop, List.getElem?_drop, hbs, hBS,
      List.getElem?_map, List.getElem?_map]
    by_cases hm : b + 1 + m < numB
    · rw [List.getElem?_range hm]
      show some (respElevs (svc (b + 1 + m))) = some (respResults (svc (b + 1 + m)))
      rw [(hre _ hm (by omega)).1]
    · have hnone : (List.range numB)[b + 1 + m]? = none :=
        List.getElem?_eq_none (by simpa using hm)
      rw [hnone]
      rfl
  -- decompose the flattened result
  have hbsplit : bs.flatten = (BS.take b).flatten ++ (BS.drop (b + 1)).flatten := by
    have hdecomp : bs = bs.take b ++ bs.drop b := (List.take_append_drop b bs).symm
    have hbblock : bs.drop b = [] :: bs.drop (b + 1) := by
      rw [List.drop_eq_getElem_cons (by omega)]
      congr 1
      rcases List.getElem?_eq_some.mp hbsb with ⟨hlt, hget⟩
      simpa using hget
    calc bs.flatten = (bs.take b ++ bs.drop b).flatten := by rw [← hdecomp]
      _ = (bs.take b).flatten ++ (bs.drop b).flatten := by rw [List.flatten_append]
      _ = (BS.take b).flatten ++ ([] :: bs.drop (b + 1)).flatten := by
          rw [hbstake, hbblock]
      _ = (BS.take b).flatten ++ (BS.drop (b + 1)).flatten := by
          rw [List.flatten_cons, hbsdrop, List.nil_append]
  -- identify the two pieces with take/drop of the aligned sequence
  have hBSb : BS[b]? = some (respResults (svc b)) := by
    rw [hBS, List.getElem?_map, List.getElem?_range hb]
    rfl
  have htakepiece : (allResults svc fixes).take (100 * b) = (BS.take b).flatten := by
    unfold allResults
    exact flatten_take_blocks 100 BS b (by omega) hsz100
  have hdroppiece : (allResults svc fixes).drop
      (100 * b + ((chunksOf 100 fixes).getD b []).length)
      = (BS.drop (b + 1)).flatten := by
    unfold allResults
    have h1 : (100 * b + ((chunksOf 100 fixes).getD b []).length)
        = 100 * b + ((chunksOf 100 fixes).getD b []).length := rfl
    rw [← List.drop_drop]
    rw [show ((List.range numB).map (fun j => respResults (svc j))) = BS from rfl]
    rw [flatten_drop_blocks 100 BS b (by omega) hsz100]
    have hBSdecomp : BS.drop b = respResults (svc b) :: BS.drop (b + 1) := by
      rw [List.drop_eq_getElem_cons (by omega)]
      congr 1
      rcases List.getElem?_eq_some.mp hBSb with ⟨hlt, hget⟩
      simpa using hget
    rw [hBSdecomp, List.flatten_cons, ← hresb, List.drop_left]
  refine ⟨bs.flatten, hE, ?_, ?_, ?_⟩
  · rw [hbsplit, List.length_append]
    have ht : (BS.take b).flatten.length = 100 * b := by
      rw [← htakepiece]
      unfold allResults
      rw [List.length_take]
      have hsub : 100 * b + ((chunksOf 100 fixes).getD b []).length ≤ fixes.length := by
        have hlenb := chunksOf_getElem?_length 100 (by omega) fixes b hck
        have hbound := chunksOf_getElem?_isSome 100 (by omega) fixes b hck
        omega
      rw [show ((List.range numB).map (fun j => respResults (svc j))).flatten.length
          = fixes.length from hBSlen]
      omega
    have hd : (BS.drop (b + 1)).flatten.length
        = fixes.length - (100 * b + ((chunksOf 100 fixes).getD b []).length) := by
      rw [← hdroppiece]
      unfold allResults
      rw [List.length_drop]
      rw [show ((List.range numB).map (fun j => respResults (svc j))).flatten.length
          = fixes.length from hBSlen]
    have hsub : 100 * b + ((chunksOf 100 fixes).getD b []).length ≤ fixes.length := by
      have hlenb := chunksOf_getElem?_length 100 (by omega) fixes b hck
      have hbound := chunksOf_getElem?_isSome 100 (by omega) fixes b hck
      omega
    omega
  · have hpos : 0 < ((chunksOf 100 fixes).getD b []).length := by
      have hmem : (chunksOf 100 fixes).getD b [] ∈ chunksOf 100 fixes :=
        List.getElem?_mem hck
      have := chunksOf_ne_nil 100 (by omega) _ hmem
      exact List.length_pos.mpr this
    have hbound := chunksOf_getElem?_isSome 100 (by omega) fixes b hck
    have hlenb := chunksOf_getElem?_length 100 (by omega) fixes b hck
    have hlen1 : bs.flatten.length
        = fixes.length - ((chunksOf 100 fixes).getD b []).length := by
      rw [hbsplit, List.length_append]
      have ht : (BS.take b).flatten.length = 100 * b := by
        rw [← htakepiece]
        unfold allResults
        rw [List.length_take,
          show ((List.range numB).map (fun j => respResults (svc j))).flatten.length
            = fixes.length from hBSlen]
        omega
      have hd : (BS.drop (b + 1)).flatten.length
          = fixes.length - (100 * b + ((chunksOf 100 fixes).getD b []).length) := by
        rw [← hdroppiece]
        unfold allResults
        rw [List.length_drop,
          show ((List.range numB).map (fun j => respResults (svc j))).flatten.length
            = fixes.length from hBSlen]
      omega
    omega
  · rw [hbsplit, htakepiece, hdroppiece]

/-- Witness for C5: a one-batch track whose only batch answers with a
non-"OK" status. -/
theorem bad_status_shortens_and_misaligns_witness :
    ∃ l, getGroundElevations wSvcBadStatus "s" wFixes = .ok l ∧
      l.length = wFixes.length - ((chunksOf 100 wFixes).getD 0 []).length ∧
      l.length < wFixes.length ∧
      l = (allResults wSvcBadStatus wFixes).take (100 * 0)
          ++ (allResults wSvcBadStatus wFixes).drop
              (100 * 0 + ((chunksOf 100 wFixes).getD 0 []).length) :=
  bad_status_shortens_and_misaligns wSvcBadStatus "s" wFixes 0 wBadData
    (by decide) rfl (by decide) (by decide) (by decide)

/-- Whether a response is a non-success HTTP status. -/
def isHttpError : FetchResponse → Bool
  | .httpError _ => true
  | .ok _ => false

/-- Bridging form of "no batch fails at the HTTP level". -/
theorem no_httpError_of_flag {svc : Nat → FetchResponse} {fixes : List Fix}
    (hok : ∀ b, b < (chunksOf 100 fixes).length → isHttpError (svc b) = false) :
    ∀ j, j < (chunksOf 100 fixes).length → ∀ s, svc (0 + j) ≠ .httpError s := by
  intro j hj s h
  have hflag := hok j hj
  rw [Nat.zero_add] at h
  rw [h] at hflag
  simp [isHttpError] at hflag

/-- C8 (amended): each elevation-batch request URL encodes its
coordinates as latitude and longitude rounded to 5 decimal digits,
separated by a comma FOLLOWED BY A SPACE, the pairs joined by the
character `|`. -/
theorem request_pair_format (svc : Nat → FetchResponse) (server : String)
    (fixes : List Fix)
    (hok : ∀ b, b < (chunksOf 100 fixes).length → isHttpError (svc b) = false) :
    elevationRequests svc server fixes
      = (chunksOf 100 fixes).map (fun ch =>
          server ++ "?locations=" ++ String.intercalate "|" (ch.map (fun t =>
            jsToFixed 5 t.latitude ++ ", " ++ jsToFixed 5 t.longitude))) := by
  have hfetch := fetchBatches_ok svc server (chunksOf 100 fixes) 0
    (no_httpError_of_flag hok)
  unfold elevationRequests getGroundElevationsFull
  rw [hfetch]
  rfl

/-- Counterexample for C8: a single-fix batch at latitude 47 and
longitude 8 produces the query value "47.00000, 8.00000" — comma AND
space — not the claimed "47.00000,8.00000". -/
theorem request_pair_format_cex :
    elevationRequests wSvc "s" [wFix "10:00:00" 0]
        = ["s?locations=47.00000, 8.00000"] ∧
    locationsQuery [wFix "10:00:00" 0] = "47.00000, 8.00000" ∧
    "47.00000, 8.00000" ≠ "47.00000,8.00000" := by
  refine ⟨by decide, by decide, by decide⟩

/-- Witness for the amended C8: the two-fix track against the healthy
service. -/
theorem request_pair_format_witness :
    elevationRequests wSvc "s" wFixes
      = (chunksOf 100 wFixes).map (fun ch =>
          "s" ++ "?locations=" ++ String.intercalate "|" (ch.map (fun t =>
            jsToFixed 5 t.latitude ++ ", " ++ jsToFixed 5 t.longitude))) :=
  request_pair_format wSvc "s" wFixes (fun b _ => rfl)

/-- The two elevation batches of any 150-fix track. -/
theorem chunksOf100_length150 {l : List α} (h : l.length = 150) :
    chunksOf 100 l = [l.take 100, (l.drop 100).take 100] := by
  have h1 : l ≠ [] := by
    intro hc
    subst hc
    simp at h
  rw [chunksOf_eq_cons (by omega) h1]
  have h2 : l.drop 100 ≠ [] := by
    intro hc
    have := congrArg List.length hc
    simp [h] at this
  rw [chunksOf_eq_cons (by omega) h2]
  have h3 : (l.drop 100).drop 100 = [] := by
    apply List.eq_nil_of_length_eq_zero
    simp [h]
  rw [h3, chunksOf_nil]

/-- The three scoring chunks of any 150-fix track. -/
theorem chunksOf60_length150 {l : List α} (h : l.length = 150) :
    chunksOf 60 l = [l.take 60, (l.drop 60).take 60, ((l.drop 60).drop 60).take 60] := by
  have h1 : l ≠ [] := by
    intro hc
    subst hc
    simp at h
  rw [chunksOf_eq_cons (by omega) h1]
  have h2 : l.drop 60 ≠ [] := by
    intro hc
    have := congrArg List.length hc
    simp [h] at this
  rw [chunksOf_eq_cons (by omega) h2]
  have h3 : (l.drop 60).drop 60 ≠ [] := by
    intro hc
    have := congrArg List.length hc
    simp [h] at this
  rw [chunksOf_eq_cons (by omega) h3]
  have h4 : ((l.drop 60).drop 60).drop 60 = [] := by
    apply List.eq_nil_of_length_eq_zero
    simp [h]
  rw [h4, chunksOf_nil]

/-- C9 (amended): for a 150-fix track with chunk size 60, the engine
performs exactly 3 scoring iterations over the prefixes of lengths 60,
120 and 150, and the elevation lookup issues exactly TWO batches, of
sizes 100 and 50 (`ceil(150/100) = 2`, not 3). -/
theorem scenario_b_batches_and_iterations (svc : Nat → FetchResponse)
    (server : String) (fixes : List Fix)
    (hlen : fixes.length = 150)
    (hok : ∀ b, b < (chunksOf 100 fixes).length → isHttpError (svc b) = false) :
    (scoringPrefixes fixes).map List.length = [60, 120, 150] ∧
    (elevationRequests svc server fixes).length = 2 ∧
    (chunksOf 100 fixes).map List.length = [100, 50] := by
  refine ⟨?_, ?_, ?_⟩
  · rw [scoringPrefixes, if_neg (by omega), chunksOf60_length150 hlen]
    simp only [scoringPrefixes.go, List.map_cons, List.map_nil, List.nil_append]
    simp [List.length_take, List.length_drop, List.length_append, hlen]
  · have hfetch := fetchBatches_ok svc server (chunksOf 100 fixes) 0
      (no_httpError_of_flag hok)
    unfold elevationRequests getGroundElevationsFull
    rw [hfetch]
    simp only [List.length_map]
    rw [chunksOf_hundred_length, hlen]
  · rw [chunksOf100_length150 hlen]
    simp [List.length_take, List.length_drop, hlen]

/-- A 150-fix track for the scenario-B witness. -/
def wFixes150 : List Fix := (List.range 150).map (fun k : Nat => wFix "12:00:00" (k : Int))

/-- Counterexample for C9: the 150-fix track's lookup issues 2 batches
(of sizes 100 and 50), not the claimed 3. -/
theorem scenario_b_batches_cex :
    (elevationRequests wSvc "s" wFixes150).length = 2 ∧ (2 : Nat) ≠ 3 ∧
    (chunksOf 100 wFixes150).map List.length = [100, 50] := by
  have hlen : wFixes150.length = 150 := by
    unfold wFixes150
    rw [List.length_map, List.length_range]
  refine ⟨?_, by omega, ?_⟩
  · have hfetch := fetchBatches_ok wSvc "s" (chunksOf 100 wFixes150) 0
      (no_httpError_of_flag (fun b _ => rfl))
    unfold elevationRequests getGroundElevationsFull
    rw [hfetch]
    simp only [List.length_map]
    rw [chunksOf_hundred_length, hlen]
  · rw [chunksOf100_length150 hlen]
    simp [List.length_take, List.length_drop, hlen]

/-- Witness for the amended C9: the concrete 150-fix track against the
healthy service. -/
theorem scenario_b_batches_and_iterations_witness :
    (scoringPrefixes wFixes150).map List.length = [60, 120, 150] ∧
    (elevationRequests wSvc "s" wFixes150).length = 2 ∧
    (chunksOf 100 wFixes150).map List.length = [100, 50] :=
  scenario_b_batches_and_iterations wSvc "s" wFixes150
    (by unfold wFixes150; rw [List.length_map, List.length_range])
    (fun b _ => rfl)

end Igc4vid
